import Mathlib

/-!
Verification development for git-log-multi-all.py, a single-file tool that
lists commits across multiple Git repositories grouped by calendar day.

The embedding below translates the script's functions into Lean. External
effects are made explicit parameters:
* the external git binary's text output is a `List String` of log lines
  (the script only consumes `raw.splitlines()`);
* the repository-list file is a `List String` of its lines
  (the script only consumes `f.read().splitlines()`);
* the run date matters because `dateutil.parser.parse` completes a missing
  day-of-month from the *current* date (clamped to the month's length), so
  the current day-of-month is threaded through as a `td : Nat` parameter;
* `blessings.Terminal` styling degrades to empty strings when stdout is not
  a terminal; the formatting model uses that degraded (plain-text) form,
  which is presentation-only and carries no claim-relevant content.

The script is Python 2 (`dict.keys().sort()`); Python dict iteration order
is unspecified there, but the script sorts the keys before display, so the
bucket map is modelled as an association list with first-key lookup, which
has the same lookup/update/append semantics as the dict operations used.
-/

/-- Python `str.strip()` whitespace set: space, tab, LF, CR, VT, FF. -/
def isPySpace (c : Char) : Bool :=
  c = ' ' || c = '\t' || c = '\n' || c = '\r' || c = '\x0b' || c = '\x0c'

/-- Python `str.strip()` on a character list: drop whitespace at both ends. -/
def pyStripL (cs : List Char) : List Char :=
  ((cs.dropWhile isPySpace).reverse.dropWhile isPySpace).reverse

/-- Python `s.split(sep)` for a one-character separator, on character lists:
split at every occurrence, keeping empty segments (`"".split(sep) == [""]`). -/
def splitChar (sep : Char) : List Char → List (List Char)
  | [] => [[]]
  | c :: cs =>
    if c = sep then [] :: splitChar sep cs
    else
      match splitChar sep cs with
      | f :: rest => (c :: f) :: rest
      | [] => [[c]]

/-- Python `s.split(sep)` at the `String` level. -/
def splitStr (sep : Char) (s : String) : List String :=
  (splitChar sep s.data).map String.mk

/-- Left-pad a numeral to two digits (`strftime` zero padding). -/
def pad2 (n : Nat) : String :=
  if n < 10 then "0" ++ toString n else toString n

/-- Left-pad a numeral to four digits (`strftime` zero padding). -/
def pad4 (n : Nat) : String :=
  if n < 10 then "000" ++ toString n
  else if n < 100 then "00" ++ toString n
  else if n < 1000 then "0" ++ toString n
  else toString n

/-- `calendar.isleap(y)`: Gregorian leap year. -/
def isleap (y : Nat) : Bool :=
  decide (y % 4 = 0) && (decide (y % 100 ≠ 0) || decide (y % 400 = 0))

/-- `calendar.monthrange(y, m)[1]`: the number of days in month `m` of year
`y` (CPython: a fixed per-month table plus one for a leap-year February). -/
def monthLength (y m : Nat) : Nat :=
  if m = 2 then (if isleap y then 29 else 28)
  else if m = 4 ∨ m = 6 ∨ m = 9 ∨ m = 11 then 30
  else 31

/-- A timezone-aware `datetime.datetime` as the script observes it: local
calendar components plus a UTC-offset in minutes.  `datetime.date` values
(the resolver's month-end) are represented with all time components zero. -/
structure DateTime where
  year : Nat
  month : Nat
  day : Nat
  hour : Nat
  minute : Nat
  second : Nat
  offMin : Int
deriving Repr, DecidableEq

/-- Days before year `y` in the proleptic Gregorian calendar (year 1 ≈ 0). -/
def daysBeforeYear (y : Nat) : Nat :=
  365 * (y - 1) + (y - 1) / 4 - (y - 1) / 100 + (y - 1) / 400

/-- Days in the months strictly before month `m` of a non-leap year. -/
def daysBeforeMonth (m : Nat) : Nat :=
  match m with
  | 1 => 0 | 2 => 31 | 3 => 59 | 4 => 90 | 5 => 120 | 6 => 151
  | 7 => 181 | 8 => 212 | 9 => 243 | 10 => 273 | 11 => 304 | 12 => 334
  | _ => 0

/-- `datetime.date(y, m, d).toordinal()`: day number with 0001-01-01 = 1. -/
def toOrdinal (y m d : Nat) : Nat :=
  daysBeforeYear y + daysBeforeMonth m
    + (if decide (2 < m) && isleap y then 1 else 0) + d

/-- The instant a `DateTime` denotes, in seconds (UTC), as Python compares
timezone-aware datetimes. -/
def tsSec (dt : DateTime) : Int :=
  (toOrdinal dt.year dt.month dt.day : Int) * 86400
    + (dt.hour : Int) * 3600 + (dt.minute : Int) * 60 + (dt.second : Int)
    - dt.offMin * 60

/-- `ts.strftime('%Y-%m-%d')`: the record's date-bucket key. -/
def dateKey (dt : DateTime) : String :=
  pad4 dt.year ++ "-" ++ pad2 dt.month ++ "-" ++ pad2 dt.day

/-- `ts.strftime('%H:%M:%S')`: the per-commit displayed time. -/
def timeKey (dt : DateTime) : String :=
  pad2 dt.hour ++ ":" ++ pad2 dt.minute ++ ":" ++ pad2 dt.second

/-- `strftime('%A')` weekday name from a proleptic-Gregorian ordinal
(ordinal 1, 0001-01-01, is a Monday). -/
def weekdayName (ordinal : Nat) : String :=
  match ordinal % 7 with
  | 1 => "Monday" | 2 => "Tuesday" | 3 => "Wednesday" | 4 => "Thursday"
  | 5 => "Friday" | 6 => "Saturday" | _ => "Sunday"

/-- Digits to the number they denote, most significant first. -/
def digitsToNat (cs : List Char) : Nat :=
  cs.foldl (fun n c => 10 * n + (c.toNat - 48)) 0

/-- Python `int(s)` for non-negative decimal numerals (`String.toNat?`,
reimplemented over the character list so that it evaluates by reduction). -/
def pyToNat (s : String) : Option Nat :=
  if s.data ≠ [] ∧ s.data.all (fun c => c.isDigit) = true then
    some (digitsToNat s.data)
  else none

/-- Parse a `YYYY-MM-DD` date (used by `dateutil.parser.parse` model). -/
def parseYMD (s : String) : Option (Nat × Nat × Nat) :=
  match splitStr '-' s with
  | [ys, ms, ds] =>
    match pyToNat ys, pyToNat ms, pyToNat ds with
    | some y, some m, some d =>
      if ys.length = 4 ∧ 1 ≤ m ∧ m ≤ 12 ∧ 1 ≤ d ∧ d ≤ monthLength y m then
        some (y, m, d)
      else none
    | _, _, _ => none
  | _ => none

/-- Parse a `YYYY-MM` month string (used by `dateutil.parser.parse` model). -/
def parseYM (s : String) : Option (Nat × Nat) :=
  match splitStr '-' s with
  | [ys, ms] =>
    match pyToNat ys, pyToNat ms with
    | some y, some m =>
      if ys.length = 4 ∧ 1 ≤ m ∧ m ≤ 12 then some (y, m) else none
    | _, _ => none
  | _ => none

/-- Parse an `HH:MM:SS` time (used by `dateutil.parser.parse` model). -/
def parseHMS (s : String) : Option (Nat × Nat × Nat) :=
  match splitStr ':' s with
  | [hs, ms, ss] =>
    match pyToNat hs, pyToNat ms, pyToNat ss with
    | some h, some mi, some sec =>
      if h ≤ 23 ∧ mi ≤ 59 ∧ sec ≤ 59 then some (h, mi, sec) else none
    | _, _, _ => none
  | _ => none

/-- Parse a `±HHMM` UTC offset into minutes. -/
def parseOffset (s : String) : Option Int :=
  match s.data with
  | c :: rest =>
    if rest.length = 4 ∧ rest.all (fun ch => ch.isDigit) = true then
      let minutes : Nat := digitsToNat (rest.take 2) * 60 + digitsToNat (rest.drop 2)
      if c = '+' then some (Int.ofNat minutes)
      else if c = '-' then some (-(Int.ofNat minutes : Int))
      else none
    else none
  | [] => none

/-- Model of `dateutil.parser.parse` restricted to the input shapes this
program feeds it: `YYYY-MM-DD HH:MM:SS ±HHMM` (git's `%ci` committer date),
`YYYY-MM-DD` (CLI dates and bucket keys) and `YYYY-MM` (the `--month`
argument).  Components the input omits are completed from `default`, which
dateutil takes to be the current date at midnight; in particular a missing
day-of-month becomes the day-of-month of the run date, clamped to the last
day of the parsed month (`td` is that current day-of-month). -/
def dateutil_parse (td : Nat) (s : String) : Option DateTime :=
  match splitStr ' ' s with
  | [d] =>
    match parseYMD d with
    | some (y, m, dd) => some ⟨y, m, dd, 0, 0, 0, 0⟩
    | none =>
      match parseYM d with
      | some (y, m) =>
        some ⟨y, m, if monthLength y m < td then monthLength y m else td, 0, 0, 0, 0⟩
      | none => none
  | [d, t, off] =>
    match parseYMD d, parseHMS t, parseOffset off with
    | some (y, m, dd), some (h, mi, sec), some o => some ⟨y, m, dd, h, mi, sec, o⟩
    | _, _, _ => none
  | _ => none

/-- `get_repos_list`: keep the lines of the repository-list file whose
`line.find('#')` is not `0`.  The file read is externalised: the function
takes the file's lines (`f.read().splitlines()`). -/
def firstHashIdx (cs : List Char) : Option Nat :=
  match cs with
  | [] => none
  | a :: rest => if a = '#' then some 0 else (firstHashIdx rest).map Nat.succ

/-- Python `line.find('#')`: lowest index of `'#'`, or `-1`. -/
def pyFindHash (s : String) : Int :=
  match firstHashIdx s.data with
  | some i => Int.ofNat i
  | none => -1

def get_repos_list (fileLines : List String) : List String :=
  fileLines.filter (fun line => !(decide (pyFindHash line = 0)))

/-- The outcome of `get_start_end`: either a resolved pair of date-times,
or the unparsed arguments handed back unchanged when neither branch fires
(the source then returns `start, end` as it received them). -/
inductive GSEOut where
  | parsed (startDT endDT : DateTime)
  | passthrough (s e : Option String)
deriving Repr, DecidableEq

/-- Python truthiness of an optional string: `None` and `''` are falsy. -/
def truthy : Option String → Bool
  | none => false
  | some s => !(s == "")

/-- `get_start_end(start, end, month)`.  `td` is the run date's day-of-month
(see `dateutil_parse`).  A `dateutil` parse failure is the raised `ValueError`.
In the month branch the source builds `end` as
`date(start.year, start.month, calendar.monthrange(start.year, start.month)[1])`. -/
def get_start_end (td : Nat) (sArg eArg mArg : Option String) : Except String GSEOut :=
  if truthy sArg && truthy eArg then
    match dateutil_parse td (sArg.getD ""), dateutil_parse td (eArg.getD "") with
    | some s, some e => Except.ok (GSEOut.parsed s e)
    | _, _ => Except.error "ValueError: could not parse start or end"
  else if truthy mArg then
    match dateutil_parse td (mArg.getD "") with
    | some s =>
      Except.ok (GSEOut.parsed s ⟨s.year, s.month, monthLength s.year s.month, 0, 0, 0, 0⟩)
    | none => Except.error "ValueError: could not parse month"
  else Except.ok (GSEOut.passthrough sArg eArg)

/-- One parsed commit, as built in `repo_commits`. -/
structure CommitRecord where
  repo : String
  commit : String
  date : String
  ts : DateTime
  author : String
  branch : String
  subject : String
deriving Repr, DecidableEq

/-- `line.strip().replace('"','').split('|')`: strip the line, delete every
double-quote character, then split on the pipe character. -/
def lineFields (line : String) : List String :=
  (splitChar '|' ((pyStripL line.data).filter (fun c => c != '"'))).map String.mk

/-- The five-name tuple unpacking
`commit,rawdate,email,refname,subject = ...split('|')`: `none` is the
`ValueError` Python raises when the field count is not exactly five. -/
def splitFields (line : String) :
    Option (String × String × String × String × String) :=
  match lineFields line with
  | [commit, rawdate, author, refname, subject] =>
    some (commit, rawdate, author, refname, subject)
  | _ => none

/-- `refname.strip().replace('(','').replace(')','')`: the new branch label
taken from a non-empty ref-decoration field. -/
def cleanRef (r : String) : String :=
  String.mk ((pyStripL r.data).filter (fun c => c != '(' && c != ')'))

/-- The parsing loop of `repo_commits`: fold over the log lines threading the
current `branch` label, building records in line order.  Any raised error
(`ValueError` from 5-name unpacking, or a date parse failure) aborts. -/
def repoLoop (td : Nat) (repoName : String) (branch : String) :
    List String → Except String (List CommitRecord)
  | [] => Except.ok []
  | line :: rest =>
    match splitFields line with
    | none => Except.error "ValueError: line does not split into 5 fields"
    | some (commit, rawdate, author, refname, subject) =>
      let branchNew := if refname = "" then branch else cleanRef refname
      match dateutil_parse td rawdate with
      | none => Except.error "ValueError: could not parse commit date"
      | some ts =>
        (repoLoop td repoName branchNew rest).map (fun others =>
          { repo := repoName, commit := commit, date := rawdate, ts := ts,
            author := author, branch := branchNew, subject := subject } :: others)

/-- Python's in-place `list.reverse()`, as the value it leaves behind. -/
def pyReverse (l : List α) : List α :=
  l.foldl (fun acc x => x :: acc) []

/-- Python's `sorted(commits, key=lambda commit: commit['ts'])`: a stable
sort by timestamp.  Both call sites discard the result. -/
def insertByTs (c : CommitRecord) : List CommitRecord → List CommitRecord
  | [] => [c]
  | d :: ds =>
    if decide (tsSec c.ts < tsSec d.ts) then c :: d :: ds else d :: insertByTs c ds

def pySortByTs (l : List CommitRecord) : List CommitRecord :=
  l.foldr insertByTs []

/-- `repo_commits`: parse the git log output (here, its lines; the git
invocation itself is external), then
`sorted(commits, key=...)` — whose result is discarded — then
`commits.reverse()`.  `repoName` is `os.path.basename(repo.working_dir)`. -/
def repo_commits (td : Nat) (repoName : String) (lines : List String) :
    Except String (List CommitRecord) :=
  (repoLoop td repoName "" lines).map (fun commits =>
    let _sorted := pySortByTs commits
    pyReverse commits)

/-- `repo_commits` with the discarded `sorted(...)` statement deleted. -/
def repo_commits_nosort (td : Nat) (repoName : String) (lines : List String) :
    Except String (List CommitRecord) :=
  (repoLoop td repoName "" lines).map (fun commits => pyReverse commits)

/-- The date-bucket mapping `dates`: date string to list of records. -/
def BucketMap : Type := List (String × List CommitRecord)

/-- `dates.get(d)`. -/
def bucketFind : BucketMap → String → Option (List CommitRecord)
  | [], _ => none
  | (k, v) :: rest, d => if k = d then some v else bucketFind rest d

/-- The bucket for a key, empty when absent. -/
def bucketGet (m : BucketMap) (d : String) : List CommitRecord :=
  (bucketFind m d).getD []

/-- `dates.keys()`. -/
def bucketKeys (m : BucketMap) : List String :=
  m.map Prod.fst

/-- Total number of records over all buckets. -/
def totalCount (m : BucketMap) : Nat :=
  (m.map (fun kv => kv.2.length)).sum

/-- One iteration of `assign_to_date`:
`if not dates.get(d): dates[d] = []` then `dates[d].append(commit)`.
(Replacing a falsy existing bucket — an empty list — with a fresh empty list
is observationally the identity, so the model appends to the existing entry.) -/
def addToBucket : BucketMap → String → CommitRecord → BucketMap
  | [], d, c => [(d, [c])]
  | (k, v) :: rest, d, c =>
    if k = d then (k, v ++ [c]) :: rest else (k, v) :: addToBucket rest d c

/-- `assign_to_date(commits, dates)`: append each record to the bucket keyed
by `commit['ts'].strftime('%Y-%m-%d')`, creating the bucket on first use,
and return the mapping. -/
def assign_to_date (commits : List CommitRecord) (dates : BucketMap) : BucketMap :=
  commits.foldl (fun m c => addToBucket m (dateKey c.ts) c) dates

/-- The whole gathering loop of `main`: fold `assign_to_date` over the
per-repository record batches, starting from the empty dict. -/
def assignBatches (batches : List (List CommitRecord)) : BucketMap :=
  batches.foldl (fun m cs => assign_to_date cs m) []

/-- One printed commit line, with `blessings` styling degraded to the
non-terminal (empty-string) form: `'{ts} {commit} ({author}) {repo}
[{branch}] {subject}'`. -/
def formatLine (c : CommitRecord) : String :=
  timeKey c.ts ++ " " ++ c.commit ++ " (" ++ c.author ++ ") " ++ c.repo
    ++ " [" ++ c.branch ++ "] " ++ c.subject

/-- The order in which the `for c in commits` loop of `print_commits` visits
the bucket: the bucket after `commits.reverse()` (the preceding
`sorted(commits, key=...)` result is discarded). -/
def printOrder (commits : List CommitRecord) : List CommitRecord :=
  pyReverse commits

/-- `print_commits`: the lines written to stdout, in order. -/
def print_commits (commits : List CommitRecord) : List String :=
  let _sorted := pySortByTs commits
  (printOrder commits).map formatLine

/-- `print_day`: separator, `%Y-%m-%d %A` header, the commit lines, blank
line.  For keys produced by `dateKey` the `dateutil` parse always succeeds;
on a failure Python would raise, and the model falls back to the raw key. -/
def print_day (td : Nat) (dstr : String) (commits : List CommitRecord) : List String :=
  let header :=
    match dateutil_parse td dstr with
    | some day => dateKey day ++ " " ++ weekdayName (toOrdinal day.year day.month day.day)
    | none => dstr
  ["------------------------------------------------------------------------", header]
    ++ print_commits commits ++ [""]

/-- `os.path.basename`: the part after the last slash. -/
def basename (p : String) : String :=
  (splitStr '/' p).getLastD ""

/-- Display form of a resolved start/end value (`print('start: %s' % start)`). -/
def dtStr (dt : DateTime) : String :=
  dateKey dt ++ " " ++ timeKey dt

/-- Insertion of a string into a sorted list (for `dates.sort()`). -/
def insertStr (s : String) : List String → List String
  | [] => [s]
  | t :: ts => if s < t then s :: t :: ts else t :: insertStr s ts

/-- Python 2 `list.sort()` on strings: lexicographic ascending. -/
def sortStrs (l : List String) : List String :=
  l.foldr insertStr []

/-- The parsed command-line arguments. -/
structure Args where
  filename : String
  start : Option String
  «end» : Option String
  month : Option String

/-- `main`, with its effects made explicit: `td` is the run date's
day-of-month, `fileLines` the repository-list file's lines, and `gitLines`
maps a repository path to that repository's git-log output lines.  The
result is the stdout lines, or the first uncaught error (which terminates
the process with a non-zero exit status). -/
def mainFn (td : Nat) (args : Args) (fileLines : List String)
    (gitLines : String → List String) : Except String (List String) :=
  if !(truthy args.month || (truthy args.start && truthy args.«end»)) then
    Except.error "Enter start/end dates or a month."
  else
    match get_start_end td args.start args.«end» args.month with
    | Except.error e => Except.error e
    | Except.ok (GSEOut.passthrough _ _) =>
      -- unreachable once the argument check has passed: one of the two
      -- parsing branches of get_start_end must have fired
      Except.error "AttributeError"
    | Except.ok (GSEOut.parsed s e) =>
      let header := ["start: " ++ dtStr s, "  end: " ++ dtStr e, "", "Reading list..."]
      let repos := get_repos_list fileLines
      let gathered :=
        repos.foldl
          (fun acc path =>
            match acc with
            | Except.error err => Except.error err
            | Except.ok (out, buckets) =>
              match repo_commits td (basename path) (gitLines path) with
              | Except.error err => Except.error err
              | Except.ok commits =>
                Except.ok (out ++ [path], assign_to_date commits buckets))
          (Except.ok (["Gathering data..."], ([] : BucketMap)))
      match gathered with
      | Except.error err => Except.error err
      | Except.ok (pathOut, buckets) =>
        let dates := sortStrs (bucketKeys buckets)
        let dayOut := dates.foldl (fun o d => o ++ print_day td d (bucketGet buckets d)) []
        Except.ok (header ++ pathOut ++ [""] ++ dayOut)


/-- The ref-decoration field of a log line (the fourth of the five fields);
empty for lines that do not split into five fields. -/
def refField (line : String) : String :=
  match splitFields line with
  | some (_, _, _, refname, _) => refname
  | none => ""

/-- Specification-side restatement of the branch-label carry-forward: each
position's label is the cleaned most recent non-empty ref-decoration at or
before it, and `b` before any such decoration. -/
def labelScan (b : String) : List String → List String
  | [] => []
  | r :: rs =>
    let bNew := if r = "" then b else cleanRef r
    bNew :: labelScan bNew rs

/-- The payload of a successful `Except` run (for building concrete data). -/
def okD {ε α : Type} (e : Except ε α) (d : α) : α :=
  match e with
  | Except.ok a => a
  | Except.error _ => d

/-- Concrete git-log output of a first demo repository: two commits of
2017-05-10, newest first as git prints them, decoration on the first line. -/
def demoLinesA : List String :=
  ["\"a2|2017-05-10 12:00:00 -0700|Ann| (master)|second in repo-a\"",
   "\"a1|2017-05-10 10:00:00 -0700|Ann||first in repo-a\""]

/-- Concrete git-log output of a second demo repository, same calendar day,
timestamps interleaving with the first repository's. -/
def demoLinesB : List String :=
  ["\"b2|2017-05-10 13:00:00 -0700|Bob| (dev)|second in repo-b\"",
   "\"b1|2017-05-10 11:00:00 -0700|Bob||first in repo-b\""]

/-- The records extracted from the first demo repository. -/
def demoRecsA : List CommitRecord :=
  okD (repoLoop 12 "repo-a" "" demoLinesA) []

/-- The bucket map `main` builds from the two demo repositories. -/
def demoBuckets : BucketMap :=
  assign_to_date (okD (repo_commits 12 "repo-b" demoLinesB) [])
    (assign_to_date (okD (repo_commits 12 "repo-a" demoLinesA) []) [])

/-- The single date bucket of the demo run. -/
def demoBucket : List CommitRecord :=
  bucketGet demoBuckets "2017-05-10"

/-- The first demo repository's extracted records as `repo_commits` returns
them: reverse of line order, hence oldest first. -/
def demoSingleBucket : List CommitRecord :=
  okD (repo_commits 12 "repo-a" demoLinesA) []

/-- A log line whose subject contains interior double quotes. -/
def demoQuoteLine : String :=
  "\"c1|2017-05-10 14:22:01 -0700|Jane| (main)|Say \"hi\" now\""

/-- The record sequence is non-increasing in timestamp (newest first). -/
def chainGeByTs : List CommitRecord → Bool
  | [] => true
  | a :: rest =>
    match rest with
    | [] => true
    | b :: _ => decide (tsSec b.ts ≤ tsSec a.ts) && chainGeByTs rest

/-- The record sequence is non-decreasing in timestamp (oldest first). -/
def chainLeByTs : List CommitRecord → Bool
  | [] => true
  | a :: rest =>
    match rest with
    | [] => true
    | b :: _ => decide (tsSec a.ts ≤ tsSec b.ts) && chainLeByTs rest

/-! ## Helper lemmas -/

theorem pyReverse_eq_reverse {α : Type} (l : List α) : pyReverse l = l.reverse := by
  have h : ∀ (l acc : List α), l.foldl (fun a x => x :: a) acc = l.reverse ++ acc := by
    intro l
    induction l with
    | nil => intro acc; simp
    | cons x xs ih => intro acc; simp [List.foldl, ih]
  unfold pyReverse
  rw [h l [], List.append_nil]

theorem splitChar_ne_nil (sep : Char) (cs : List Char) : splitChar sep cs ≠ [] := by
  induction cs with
  | nil => simp [splitChar]
  | cons c cs ih =>
    simp only [splitChar]
    by_cases h : c = sep
    · simp [h]
    · simp only [if_neg h]
      cases hs : splitChar sep cs with
      | nil => simp
      | cons f rest => simp

theorem mem_splitChar (sep : Char) (a : Char) (cs : List Char) (f : List Char)
    (hf : f ∈ splitChar sep cs) (ha : a ∈ f) : a ∈ cs := by
  induction cs generalizing f with
  | nil =>
    simp only [splitChar, List.mem_singleton] at hf
    subst hf
    simp at ha
  | cons c cs ih =>
    simp only [splitChar] at hf
    by_cases h : c = sep
    · rw [if_pos h] at hf
      rcases List.mem_cons.mp hf with h1 | h1
      · subst h1; simp at ha
      · exact List.mem_cons_of_mem _ (ih _ h1 ha)
    · rw [if_neg h] at hf
      cases hs : splitChar sep cs with
      | nil => exact absurd hs (splitChar_ne_nil sep cs)
      | cons g rest =>
        rw [hs] at hf
        rcases List.mem_cons.mp hf with h1 | h1
        · subst h1
          rcases List.mem_cons.mp ha with h2 | h2
          · subst h2; exact List.mem_cons_self _ _
          · exact List.mem_cons_of_mem _
              (ih g (by rw [hs]; exact List.mem_cons_self _ _) h2)
        · exact List.mem_cons_of_mem _
            (ih f (by rw [hs]; exact List.mem_cons_of_mem _ h1) ha)

theorem bucketFind_addToBucket (m : BucketMap) (d : String) (c : CommitRecord)
    (k : String) :
    bucketFind (addToBucket m d c) k =
      if k = d then some (bucketGet m k ++ [c]) else bucketFind m k := by
  induction m with
  | nil =>
    by_cases h : k = d
    · subst h; simp [addToBucket, bucketFind, bucketGet]
    · simp only [addToBucket, bucketFind, if_neg h]
      rw [if_neg (fun hh => h hh.symm)]
  | cons kv rest ih =>
    obtain ⟨k0, v⟩ := kv
    by_cases h0 : k0 = d
    · subst h0
      simp only [addToBucket, if_pos rfl, bucketFind]
      by_cases hk : k0 = k
      · subst hk
        rw [if_pos rfl, if_pos rfl]
        simp [bucketGet, bucketFind]
      · rw [if_neg hk, if_neg (fun hh => hk hh.symm)]
        simp [bucketFind, if_neg hk]
    · simp only [addToBucket, if_neg h0, bucketFind]
      by_cases hk : k0 = k
      · subst hk
        simp [h0]
      · rw [if_neg hk, ih]
        by_cases hkd : k = d
        · rw [if_pos hkd, if_pos hkd]
          simp [bucketGet, bucketFind, if_neg hk]
        · rw [if_neg hkd, if_neg hkd, if_neg hk]

theorem bucketGet_addToBucket (m : BucketMap) (d : String) (c : CommitRecord)
    (k : String) :
    bucketGet (addToBucket m d c) k =
      bucketGet m k ++ (if k = d then [c] else []) := by
  unfold bucketGet
  rw [bucketFind_addToBucket]
  by_cases h : k = d <;> simp [h, bucketGet]

theorem totalCount_addToBucket (m : BucketMap) (d : String) (c : CommitRecord) :
    totalCount (addToBucket m d c) = totalCount m + 1 := by
  induction m with
  | nil => simp [addToBucket, totalCount]
  | cons kv rest ih =>
    obtain ⟨k0, v⟩ := kv
    by_cases h : k0 = d
    · simp [addToBucket, if_pos h, totalCount]
      omega
    · simp only [addToBucket, if_neg h, totalCount, List.map_cons, List.sum_cons]
      simp only [totalCount] at ih
      omega

theorem bucketFind_isSome_addToBucket (m : BucketMap) (d : String)
    (c : CommitRecord) (k : String) :
    (bucketFind (addToBucket m d c) k).isSome = true ↔
      (bucketFind m k).isSome = true ∨ k = d := by
  rw [bucketFind_addToBucket]
  by_cases h : k = d <;> simp [h]

theorem assign_to_date_cons (c : CommitRecord) (cs : List CommitRecord)
    (m : BucketMap) :
    assign_to_date (c :: cs) m = assign_to_date cs (addToBucket m (dateKey c.ts) c) := by
  simp [assign_to_date, List.foldl]

theorem bucketGet_assign (commits : List CommitRecord) (m : BucketMap) (k : String) :
    bucketGet (assign_to_date commits m) k =
      bucketGet m k ++ commits.filter (fun c => decide (dateKey c.ts = k)) := by
  induction commits generalizing m with
  | nil => simp [assign_to_date]
  | cons c cs ih =>
    rw [assign_to_date_cons, ih, bucketGet_addToBucket]
    by_cases h : dateKey c.ts = k
    · rw [if_pos h.symm]
      simp [List.filter, h]
    · rw [if_neg (fun hh => h hh.symm)]
      simp [List.filter, h]

theorem totalCount_assign (commits : List CommitRecord) (m : BucketMap) :
    totalCount (assign_to_date commits m) = totalCount m + commits.length := by
  induction commits generalizing m with
  | nil => simp [assign_to_date]
  | cons c cs ih =>
    rw [assign_to_date_cons, ih, totalCount_addToBucket]
    simp
    omega

theorem bucketFind_isSome_assign (commits : List CommitRecord) (m : BucketMap)
    (k : String) :
    (bucketFind (assign_to_date commits m) k).isSome = true ↔
      (bucketFind m k).isSome = true ∨ ∃ c ∈ commits, dateKey c.ts = k := by
  induction commits generalizing m with
  | nil => simp [assign_to_date]
  | cons c cs ih =>
    rw [assign_to_date_cons, ih, bucketFind_isSome_addToBucket]
    constructor
    · rintro ((h | h) | ⟨x, hx, hdx⟩)
      · exact Or.inl h
      · exact Or.inr ⟨c, List.mem_cons_self _ _, h.symm⟩
      · exact Or.inr ⟨x, List.mem_cons_of_mem _ hx, hdx⟩
    · rintro (h | ⟨x, hx, hdx⟩)
      · exact Or.inl (Or.inl h)
      · rcases List.mem_cons.mp hx with h1 | h1
        · subst h1; exact Or.inl (Or.inr hdx.symm)
        · exact Or.inr ⟨x, h1, hdx⟩

theorem labelScan_length (b : String) (rs : List String) :
    (labelScan b rs).length = rs.length := by
  induction rs generalizing b with
  | nil => rfl
  | cons r rs ih => simp [labelScan, ih]

theorem labelScan_empty_prefix (b : String) (rs : List String) (k : Nat)
    (hk : k < rs.length) (h : ∀ j, j ≤ k → rs.getD j "" = "") :
    (labelScan b rs).getD k "" = b := by
  induction rs generalizing b k with
  | nil => simp at hk
  | cons r rs ih =>
    have hr : r = "" := by simpa using h 0 (Nat.zero_le k)
    cases k with
    | zero => simp [labelScan, hr]
    | succ k =>
      simp only [labelScan, hr, if_pos rfl, List.getD_cons_succ]
      exact ih b k (by simpa using hk)
        (fun j hj => by simpa using h (j + 1) (by omega))

theorem labelScan_carry (b : String) (rs : List String) (i k : Nat)
    (hik : i ≤ k) (hk : k < rs.length) (hi : rs.getD i "" ≠ "")
    (hmid : ∀ j, i < j → j ≤ k → rs.getD j "" = "") :
    (labelScan b rs).getD k "" = cleanRef (rs.getD i "") := by
  induction rs generalizing b i k with
  | nil => simp at hk
  | cons r rs ih =>
    cases i with
    | zero =>
      simp only [List.getD_cons_zero] at hi ⊢
      cases k with
      | zero => simp [labelScan, hi]
      | succ k =>
        simp only [labelScan, if_neg hi, List.getD_cons_succ]
        exact labelScan_empty_prefix (cleanRef r) rs k (by simpa using hk)
          (fun j hj => by simpa using hmid (j + 1) (by omega) (by omega))
    | succ i =>
      cases k with
      | zero => omega
      | succ k =>
        simp only [labelScan, List.getD_cons_succ] at hi ⊢
        exact ih _ i k (by omega) (by simpa using hk) hi
          (fun j h1 h2 => by simpa using hmid (j + 1) (by omega) (by omega))

theorem repoLoop_branch_scan (td : Nat) (name : String) (lines : List String) :
    ∀ (b : String) (recs : List CommitRecord),
      repoLoop td name b lines = Except.ok recs →
      recs.map (fun c => c.branch) = labelScan b (lines.map refField) := by
  induction lines with
  | nil =>
    intro b recs h
    simp only [repoLoop] at h
    injection h with h
    subst h
    rfl
  | cons line rest ih =>
    intro b recs h
    simp only [repoLoop] at h
    cases hsf : splitFields line with
    | none =>
      simp only [hsf] at h
      exact Except.noConfusion h
    | some tup =>
      obtain ⟨commit, rawdate, author, refname, subject⟩ := tup
      simp only [hsf] at h
      cases hdp : dateutil_parse td rawdate with
      | none =>
        simp only [hdp] at h
        exact Except.noConfusion h
      | some ts =>
        simp only [hdp] at h
        cases hrl : repoLoop td name (if refname = "" then b else cleanRef refname) rest with
        | error e =>
          simp only [hrl, Except.map] at h
          exact Except.noConfusion h
        | ok others =>
          simp only [hrl, Except.map, Except.ok.injEq] at h
          subst h
          simp only [List.map_cons, refField, hsf, labelScan]
          rw [ih _ _ hrl]

theorem repoLoop_error_of_badline (td : Nat) (name : String) (lines : List String)
    (l : String) (hbad : splitFields l = none) :
    ∀ b, l ∈ lines → ∃ msg, repoLoop td name b lines = Except.error msg := by
  induction lines with
  | nil => intro b hl; simp at hl
  | cons line rest ih =>
    intro b hl
    rcases List.mem_cons.mp hl with h1 | h1
    · subst h1
      exact ⟨"ValueError: line does not split into 5 fields",
        by simp only [repoLoop, hbad]⟩
    · cases hsf : splitFields line with
      | none =>
        exact ⟨"ValueError: line does not split into 5 fields",
          by simp only [repoLoop, hsf]⟩
      | some tup =>
        obtain ⟨c1, c2, c3, c4, c5⟩ := tup
        cases hdp : dateutil_parse td c2 with
        | none =>
          exact ⟨"ValueError: could not parse commit date",
            by simp only [repoLoop, hsf, hdp]⟩
        | some ts =>
          obtain ⟨msg, hmsg⟩ := ih (if c4 = "" then b else cleanRef c4) h1
          exact ⟨msg, by simp only [repoLoop, hsf, hdp, hmsg, Except.map]⟩

theorem assign_to_date_append (cs ds : List CommitRecord) (m : BucketMap) :
    assign_to_date (cs ++ ds) m = assign_to_date ds (assign_to_date cs m) := by
  simp [assign_to_date, List.foldl_append]

theorem assignBatches_eq_join (batches : List (List CommitRecord)) :
    assignBatches batches = assign_to_date batches.flatten [] := by
  have h : ∀ m, batches.foldl (fun m cs => assign_to_date cs m) m
      = assign_to_date batches.flatten m := by
    induction batches with
    | nil => intro m; simp [assign_to_date]
    | cons cs rest ih =>
      intro m
      simp [List.flatten_cons, assign_to_date_append, ih]
  exact h []

theorem firstHashIdx_eq_zero_iff (cs : List Char) :
    firstHashIdx cs = some 0 ↔ cs.head? = some '#' := by
  cases cs with
  | nil => simp [firstHashIdx]
  | cons c cs =>
    simp only [firstHashIdx, List.head?_cons]
    by_cases h : c = '#'
    · subst h; simp
    · rw [if_neg h]
      cases firstHashIdx cs with
      | none => simp [h]
      | some n => simp [h]

theorem pyFindHash_eq_zero_iff (l : String) :
    pyFindHash l = 0 ↔ l.data.head? = some '#' := by
  rw [← firstHashIdx_eq_zero_iff]
  unfold pyFindHash
  cases firstHashIdx l.data with
  | none => simp
  | some n => simp [Int.ofNat_eq_zero]

/-- C5: feeding the date aggregator record batches from any number of
repositories, the bucket for any key holds exactly the input records whose
timestamp's `YYYY-MM-DD` equals that key, in append order (so each record
lands in exactly one bucket); a bucket exists exactly when some input record
has its key (created on first use); and the total record count over all
buckets equals the sum of the input batch sizes — no deduplication, nothing
dropped. -/
theorem c5_aggregator_partition (batches : List (List CommitRecord)) (k : String) :
    totalCount (assignBatches batches) = (batches.map List.length).sum
    ∧ bucketGet (assignBatches batches) k
        = batches.flatten.filter (fun c => decide (dateKey c.ts = k))
    ∧ ((bucketFind (assignBatches batches) k).isSome = true ↔
        ∃ c ∈ batches.flatten, dateKey c.ts = k) := by
  rw [assignBatches_eq_join]
  refine ⟨?_, ?_, ?_⟩
  · rw [totalCount_assign]
    simp [totalCount, List.length_flatten]
  · rw [bucketGet_assign]
    simp [bucketGet, bucketFind]
  · rw [bucketFind_isSome_assign]
    simp [bucketFind]

/-- C6: the extractor returns exactly the reverse of the records in parse
order (the log tool's native line order): the `sorted(...)` call has no
effect on the result — deleting it changes nothing — and the unconditional
`reverse` alone determines the final order. -/
theorem c6_reverse_not_sort (td : Nat) (repoName : String) (lines : List String) :
    repo_commits td repoName lines
        = (repoLoop td repoName "" lines).map (fun recs => recs.reverse)
    ∧ repo_commits td repoName lines = repo_commits_nosort td repoName lines := by
  constructor
  · unfold repo_commits
    cases repoLoop td repoName "" lines with
    | error e => rfl
    | ok recs => simp [Except.map, pyReverse_eq_reverse]
  · rfl

/-- C7: the repository-list loader returns exactly the lines whose first
character is not `#`, in their original order; `#`-first lines never appear;
blank lines pass through as empty path entries. -/
theorem c7_repos_list_filter (fileLines : List String) :
    get_repos_list fileLines
        = fileLines.filter (fun l => !(decide (l.data.head? = some '#')))
    ∧ get_repos_list ["/repo-a", "# /repo-b", "/repo-c"] = ["/repo-a", "/repo-c"]
    ∧ get_repos_list ["/repo-a", "", "# /repo-b"] = ["/repo-a", ""] := by
  refine ⟨?_, rfl, rfl⟩
  unfold get_repos_list
  apply List.filter_congr
  intro l _
  rw [decide_eq_decide.mpr (pyFindHash_eq_zero_iff l)]

/-- C10: the aggregator returns the input mapping updated in place: a bucket
whose key matches no input record is left unchanged (and no bucket appears
for a key no record has), and a matching bucket keeps all previously stored
records in position with the new records appended after them. -/
theorem c10_assign_frame (dates : BucketMap) (commits : List CommitRecord)
    (k : String) :
    bucketFind (assign_to_date commits dates) k =
      match bucketFind dates k with
      | some v => some (v ++ commits.filter (fun c => decide (dateKey c.ts = k)))
      | none =>
        match commits.filter (fun c => decide (dateKey c.ts = k)) with
        | [] => none
        | f => some f := by
  cases hb : bucketFind dates k with
  | some v =>
    have hs : (bucketFind (assign_to_date commits dates) k).isSome = true :=
      (bucketFind_isSome_assign commits dates k).mpr (Or.inl (by rw [hb]; rfl))
    obtain ⟨w, hw⟩ := Option.isSome_iff_exists.mp hs
    rw [hw]
    have hgg := bucketGet_assign commits dates k
    simp only [bucketGet, hw, hb, Option.getD_some] at hgg
    rw [hgg]
  | none =>
    cases hf : commits.filter (fun c => decide (dateKey c.ts = k)) with
    | nil =>
      have hno : ¬ (bucketFind (assign_to_date commits dates) k).isSome = true := by
        rw [bucketFind_isSome_assign]
        rintro (h | ⟨c, hc, hdc⟩)
        · rw [hb] at h; simp at h
        · have hcf : c ∈ commits.filter (fun c => decide (dateKey c.ts = k)) :=
            List.mem_filter.mpr ⟨hc, by simp [hdc]⟩
          rw [hf] at hcf
          simp at hcf
      cases ho : bucketFind (assign_to_date commits dates) k with
      | none => rfl
      | some w => rw [ho] at hno; simp at hno
    | cons f fs =>
      have hs : (bucketFind (assign_to_date commits dates) k).isSome = true := by
        rw [bucketFind_isSome_assign]
        right
        have hfm : f ∈ commits.filter (fun c => decide (dateKey c.ts = k)) := by
          rw [hf]
          exact List.mem_cons_self _ _
        obtain ⟨hmem, hp⟩ := List.mem_filter.mp hfm
        exact ⟨f, hmem, by simpa using hp⟩
      obtain ⟨w, hw⟩ := Option.isSome_iff_exists.mp hs
      rw [hw]
      have hgg := bucketGet_assign commits dates k
      simp only [bucketGet, hw, hb, Option.getD_none, Option.getD_some,
        List.nil_append] at hgg
      rw [hgg, hf]

/-- C3: every log line is unpacked into exactly five pipe-delimited fields —
the unpacking succeeds exactly when the split yields five fields — and a
line that does not (four fields, or an extra pipe inside the subject) raises
a `ValueError` that aborts the whole extraction: no per-line skip or
recovery, the extractor's result is an error. -/
theorem c3_five_field_contract :
    (∀ line : String, (splitFields line).isSome = true ↔ (lineFields line).length = 5)
    ∧ ∀ (td : Nat) (repoName : String) (lines : List String),
        (∃ l ∈ lines, splitFields l = none) →
        ∃ msg, repo_commits td repoName lines = Except.error msg := by
  constructor
  · intro line
    have h5 : ∀ (l : List String), lineFields line = l →
        ((splitFields line).isSome = true ↔ l.length = 5) := by
      intro l hl
      match l with
      | [] => simp [splitFields, hl]
      | [a] => simp [splitFields, hl]
      | [a, b] => simp [splitFields, hl]
      | [a, b, c] => simp [splitFields, hl]
      | [a, b, c, d] => simp [splitFields, hl]
      | [a, b, c, d, e] => simp [splitFields, hl]
      | a :: b :: c :: d :: e :: f :: rest =>
        simp [splitFields, hl]
    exact h5 (lineFields line) rfl
  · rintro td repoName lines ⟨l, hl, hbad⟩
    obtain ⟨msg, hmsg⟩ := repoLoop_error_of_badline td repoName lines l hbad "" hl
    refine ⟨msg, ?_⟩
    unfold repo_commits
    rw [hmsg]
    rfl

/-- C3 witness: a concrete four-field line aborts the extraction. -/
theorem c3_witness :
    ∃ msg, repo_commits 12 "repo-x" ["a|2017-05-10 10:00:00 -0700|Ann|fix"]
      = Except.error msg :=
  c3_five_field_contract.2 12 "repo-x" ["a|2017-05-10 10:00:00 -0700|Ann|fix"]
    ⟨"a|2017-05-10 10:00:00 -0700|Ann|fix", by decide, by rfl⟩

/-- C8: with neither the start+end pair nor a month supplied, `main` raises
the usage error before the repository-list file or any repository is
consulted — the outcome is this error for every file content and every git
output — and the uncaught exception terminates the process with a non-zero
exit status. -/
theorem c8_usage_error (td : Nat) (args : Args) (fileLines : List String)
    (gitLines : String → List String)
    (h : (truthy args.month || (truthy args.start && truthy args.«end»)) = false) :
    mainFn td args fileLines gitLines
      = Except.error "Enter start/end dates or a month." := by
  unfold mainFn
  rw [h]
  rfl

/-- C8 witness: a run with no date arguments at all. -/
theorem c8_witness :
    mainFn 12 ⟨"repos.txt", none, none, none⟩ ["/repo-a"] (fun _ => [])
      = Except.error "Enter start/end dates or a month." :=
  c8_usage_error 12 ⟨"repos.txt", none, none, none⟩ ["/repo-a"] (fun _ => []) rfl

/-- C2 counterexample: on a run date whose day-of-month is 15, month input
`2017-05` resolves start to 2017-05-15 — not day 1 — while end is
2017-05-31 as claimed. -/
theorem c2_counterexample :
    get_start_end 15 none none (some "2017-05")
        = Except.ok (GSEOut.parsed ⟨2017, 5, 15, 0, 0, 0, 0⟩ ⟨2017, 5, 31, 0, 0, 0, 0⟩)
    ∧ (15 : Nat) ≠ 1 :=
  ⟨by rfl, by decide⟩

/-- C2 (amended): for every valid month-string input, when start and end are
not both supplied, the resolver returns start with the month's year and
month but with day-of-month equal to the run date's day — dateutil's
default completion, clamped to the month's length — not day 1 in general;
and end equal to the last calendar day of that month, correct across
28/29/30/31-day months and leap-year Februaries (as the `monthLength`
examples 2016-02 ↦ 29 and 2017-05 ↦ 31 record). -/
theorem c2_month_resolution (td : Nat) (sArg eArg : Option String) (s : String)
    (y m : Nat) (hse : (truthy sArg && truthy eArg) = false)
    (htok : splitStr ' ' s = [s]) (hfull : parseYMD s = none)
    (hym : parseYM s = some (y, m)) :
    get_start_end td sArg eArg (some s)
      = Except.ok (GSEOut.parsed
          ⟨y, m, if monthLength y m < td then monthLength y m else td, 0, 0, 0, 0⟩
          ⟨y, m, monthLength y m, 0, 0, 0, 0⟩)
    ∧ monthLength 2016 2 = 29 ∧ monthLength 2017 5 = 31 := by
  refine ⟨?_, by rfl, by rfl⟩
  have hs : s ≠ "" := by
    intro h
    subst h
    simp [parseYM, splitStr, splitChar] at hym
  have h1 : ¬ ((truthy sArg && truthy eArg) = true) := by
    rw [hse]
    simp
  have h2 : truthy (some s) = true := by
    simp [truthy, hs]
  unfold get_start_end
  rw [if_neg h1, if_pos h2]
  simp only [Option.getD_some]
  unfold dateutil_parse
  simp only [htok, hfull, hym]

/-- C2 witness: month `2016-02` on the 15th: start day 15, end the leap-year
February 29th. -/
theorem c2_witness :
    get_start_end 15 none none (some "2016-02")
      = Except.ok (GSEOut.parsed
          ⟨2016, 2, if monthLength 2016 2 < 15 then monthLength 2016 2 else 15,
            0, 0, 0, 0⟩
          ⟨2016, 2, monthLength 2016 2, 0, 0, 0, 0⟩)
    ∧ monthLength 2016 2 = 29 ∧ monthLength 2017 5 = 31 :=
  c2_month_resolution 15 none none "2016-02" 2016 2 rfl (by rfl) (by rfl) (by rfl)

/-- C9 counterexample: a log line whose subject contains interior double
quotes parses with those quotes deleted: the subject comes out as
`Say hi now`, not `Say "hi" now`. -/
theorem c9_counterexample :
    splitFields demoQuoteLine
        = some ("c1", "2017-05-10 14:22:01 -0700", "Jane", " (main)", "Say hi now")
    ∧ "Say hi now" ≠ "Say \"hi\" now" :=
  ⟨by rfl, by decide⟩

/-- C9 (amended): before the pipe split the extractor deletes every double
quote anywhere in the stripped line — not only quoting characters
surrounding the whole line — so no parsed field ever contains a double
quote. -/
theorem c9_quotes_deleted (line f : String) (hf : f ∈ lineFields line) :
    f.data.all (fun c => c != '"') = true := by
  rw [List.all_eq_true]
  intro c hc
  unfold lineFields at hf
  obtain ⟨l, hl, hfl⟩ := List.mem_map.mp hf
  subst hfl
  have hmem : c ∈ (pyStripL line.data).filter (fun ch => ch != '"') :=
    mem_splitChar '|' c _ l hl hc
  exact (List.mem_filter.mp hmem).2

/-- C9 witness: the demo line's parsed subject field is quote-free. -/
theorem c9_witness : ("Say hi now").data.all (fun c => c != '"') = true :=
  c9_quotes_deleted demoQuoteLine "Say hi now" (by decide)

/-- C4: for well-formed five-field lines the extractor's branch-label
carry-forward holds: the records' labels are the scan of the cleaned
ref-decoration fields — a non-empty decoration, stripped and with
parentheses removed, labels its record and every later record until the
next non-empty decoration, and records before any non-empty decoration get
the empty-string label. -/
theorem c4_branch_carry (td : Nat) (repoName : String) (lines : List String)
    (recs : List CommitRecord)
    (hok : repoLoop td repoName "" lines = Except.ok recs) :
    recs.map (fun c => c.branch) = labelScan "" (lines.map refField)
    ∧ (∀ i k : Nat, i ≤ k → k < lines.length →
        (lines.map refField).getD i "" ≠ "" →
        (∀ j, i < j → j ≤ k → (lines.map refField).getD j "" = "") →
        (recs.map (fun c => c.branch)).getD k ""
          = cleanRef ((lines.map refField).getD i ""))
    ∧ (∀ k : Nat, k < lines.length →
        (∀ j, j ≤ k → (lines.map refField).getD j "" = "") →
        (recs.map (fun c => c.branch)).getD k "" = "") := by
  have hmap := repoLoop_branch_scan td repoName lines "" recs hok
  refine ⟨hmap, ?_, ?_⟩
  · intro i k hik hk hi hmid
    rw [hmap]
    exact labelScan_carry "" (lines.map refField) i k hik (by simpa using hk) hi hmid
  · intro k hk h
    rw [hmap]
    exact labelScan_empty_prefix "" (lines.map refField) k (by simpa using hk) h

/-- C4 witness: the demo repository's labels follow the carry-forward scan. -/
theorem c4_witness :
    demoRecsA.map (fun c => c.branch) = labelScan "" (demoLinesA.map refField) :=
  (c4_branch_carry 12 "repo-a" demoLinesA demoRecsA (by rfl)).1

theorem chainLeByTs_iff (l : List CommitRecord) :
    chainLeByTs l = true ↔ List.Chain' (fun a b => tsSec a.ts ≤ tsSec b.ts) l := by
  induction l with
  | nil => simp [chainLeByTs]
  | cons a l ih =>
    cases l with
    | nil => simp [chainLeByTs]
    | cons b rest =>
      rw [show chainLeByTs (a :: b :: rest)
            = (decide (tsSec a.ts ≤ tsSec b.ts) && chainLeByTs (b :: rest)) from rfl]
      simp only [List.chain'_cons, Bool.and_eq_true, decide_eq_true_eq, ih]

theorem chainGeByTs_iff (l : List CommitRecord) :
    chainGeByTs l = true ↔ List.Chain' (fun a b => tsSec b.ts ≤ tsSec a.ts) l := by
  induction l with
  | nil => simp [chainGeByTs]
  | cons a l ih =>
    cases l with
    | nil => simp [chainGeByTs]
    | cons b rest =>
      rw [show chainGeByTs (a :: b :: rest)
            = (decide (tsSec b.ts ≤ tsSec a.ts) && chainGeByTs (b :: rest)) from rfl]
      simp only [List.chain'_cons, Bool.and_eq_true, decide_eq_true_eq, ih]

/-- C1 (amended): the day printer prints the bucket in reverse of its append
order — the preceding sort call's result is discarded — so the printed
sequence is newest-timestamp-first exactly when the bucket's append order
was oldest-first (as a single repository's reversed log output is), but not
for arbitrary append orders produced by several repositories. -/
theorem c1_print_order (commits : List CommitRecord) :
    printOrder commits = commits.reverse
    ∧ (chainLeByTs commits = true → chainGeByTs (printOrder commits) = true)
    ∧ print_commits commits = (printOrder commits).map formatLine := by
  refine ⟨pyReverse_eq_reverse commits, ?_, rfl⟩
  intro h
  unfold printOrder
  rw [pyReverse_eq_reverse, chainGeByTs_iff, List.chain'_reverse]
  exact (chainLeByTs_iff commits).mp h

/-- C1 counterexample: the date bucket assembled from the two demo
repositories (timestamps interleaved: append order 10:00, 12:00, 11:00,
13:00) is printed in order 13:00, 11:00, 12:00, 10:00 — not non-increasing
in timestamp. -/
theorem c1_counterexample :
    chainGeByTs (printOrder demoBucket) = false := by
  decide

/-- C1 witness: a single repository's bucket (oldest-first append order) is
printed newest-first. -/
theorem c1_witness :
    chainGeByTs (printOrder demoSingleBucket) = true :=
  (c1_print_order demoSingleBucket).2.1 (by decide)
